import Mathlib

/-!
# Verification of the scenario generator in src/quantum_solver.py

A shallow embedding of the repository's core (`quantum_solver.py`): the
synthetic metric model `_compute_metrics`, the linear scoring function
`_score`, the two-phase generator `generate_scenarios` (uniform random spray,
simulated-annealing walk, dedup/sort/truncate assembly) and the Pareto filter
`pareto_front`.

Conventions of the embedding:
* Python floats are modelled as exact rationals; decimal literals of the
  source are read as the exact rationals they denote (0.35 as 35/100, and so
  on).  Python ints are ℤ, `sample_count` is ℕ.
* `random.Random(seed)` (the library Mersenne Twister) and `math.exp` are
  standard-library code outside this repository.  They are modelled as
  explicit parameters: a deterministic stream `RndSrc` of raw draws and an
  arbitrary function `expQ : ℚ → ℚ` standing for `math.exp`.  Every structural
  theorem below is quantified over all such streams and all such functions, so
  it covers whatever values the real library produces.  Concrete instances
  (`mkSrc`, `expModel`) are supplied so the whole pipeline stays executable.
* Fallible code returns Option: `random.randint(lo, hi)` raises ValueError on
  an empty range (hi < lo), which the embedding renders as `none`.
-/

/-- Python's int() conversion applied to an exact rational: truncation toward
zero (floor for nonnegative arguments, negated floor of the negation
otherwise). -/
def pyInt (q : ℚ) : ℤ := if 0 ≤ q then ⌊q⌋ else -⌊-q⌋

/-- From src/quantum_solver.py line 6: `_clamp_int(x, lo, hi)` returns
`max(lo, min(hi, int(x)))` (the argument is already an int at every call
site). -/
def _clamp_int (x lo hi : ℤ) : ℤ := max lo (min hi x)

/-- The parameter bundle of `generate_scenarios` (the function's scalar
keyword arguments, bundled). -/
structure Params where
  target_total : ℤ
  growth_pct : ℤ
  cost_full_time : ℚ
  cost_part_time : ℚ
  cost_contractor : ℚ
  benefit_richness : ℚ
  policy_strictness : ℚ
  risk_factor : ℚ
  w_cost : ℚ
  w_risk : ℚ
  w_ret : ℚ
deriving DecidableEq

/-- The metrics record returned by `_compute_metrics`. -/
structure Metrics where
  ft : ℤ
  pt : ℤ
  ct : ℤ
  fte : ℚ
  effective_target : ℚ
  cost : ℚ
  risk : ℚ
  retention : ℚ
  penalty : ℚ
deriving DecidableEq

instance : Inhabited Metrics := ⟨⟨0, 0, 0, 0, 0, 0, 0, 0, 0⟩⟩

/-- From src/quantum_solver.py lines 9-55: the synthetic metric model.
`fte = ft*1.0 + pt*0.5 + ct*1.0`; `effective_target = target_total *
(1 + growth_pct/100)`; cost is the linear base cost plus the nonlinear
overhead `0.000004*(ft+pt+ct)**2 * base_cost`; risk and retention are the
stated products of ratios (denominators floored at 1); penalty is the
quadratic deviation `|fte - effective_target|**2 * 0.06`. -/
def _compute_metrics (ft pt ct : ℤ) (p : Params) : Metrics :=
  let fte : ℚ := (ft : ℚ) * 1 + (pt : ℚ) * (5/10) + (ct : ℚ) * 1
  let effective_target : ℚ := (p.target_total : ℚ) * (1 + (p.growth_pct : ℚ) / 100)
  let base_cost : ℚ :=
    (ft : ℚ) * p.cost_full_time + (pt : ℚ) * p.cost_part_time + (ct : ℚ) * p.cost_contractor
  let overhead : ℚ := ((4/1000000) * (((ft + pt + ct : ℤ) : ℚ)) ^ 2) * base_cost
  let cost : ℚ := base_cost + overhead
  let contractor_ratio : ℚ := (ct : ℚ) / ((max 1 (ft + pt + ct) : ℤ) : ℚ)
  let risk : ℚ :=
    p.risk_factor * (65/100 + (135/100) * contractor_ratio) * (12/10 - (7/10) * p.policy_strictness)
  let ft_ratio : ℚ := (ft : ℚ) / ((max 1 (ft + pt + ct) : ℤ) : ℚ)
  let retention : ℚ :=
    (7/10 + (16/10) * p.benefit_richness) * (65/100 + (9/10) * ft_ratio) * (1 - (55/100) * contractor_ratio)
  let fte_gap : ℚ := |fte - effective_target|
  let penalty : ℚ := fte_gap ^ 2 * (6/100)
  ⟨ft, pt, ct, fte, effective_target, cost, risk, retention, penalty⟩

/-- From src/quantum_solver.py lines 57-60: the scoring function.  Cost is
rescaled to millions, penalty to hundredths. -/
def _score (m : Metrics) (w_cost w_risk w_ret : ℚ) : ℚ :=
  let cost_scaled : ℚ := m.cost / 1000000
  w_cost * cost_scaled + w_risk * m.risk - w_ret * m.retention + m.penalty / 100

/-- A row of the generated population: the metrics dict of the source plus its
score (`{**m, "score": sc}`). -/
structure Row where
  m : Metrics
  score : ℚ
deriving DecidableEq

instance : Inhabited Row := ⟨⟨default, 0⟩⟩

/-- The `(ft, pt, ct)` identity of a row — the subset key of the source's
`drop_duplicates(subset=["ft","pt","ct"])`. -/
def mixOf (r : Row) : ℤ × ℤ × ℤ := (r.m.ft, r.m.pt, r.m.ct)

/-- A deterministic stream of raw pseudo-random draws, indexed by the number
of calls made so far: `ints k` feeds the k-th call when it is a `randint`
(reduced into the requested range by a modulus), `us k` feeds it when it is a
`random()`.  Quantifying over every `RndSrc` covers every behaviour of the
seeded library Mersenne Twister. -/
structure RndSrc where
  ints : ℕ → ℕ
  us : ℕ → ℚ

/-- `rng.randint(lo, hi)` at call index k: a value in `[lo, hi]` when the
range is nonempty, `none` (Python: ValueError from `randrange`) when
`hi < lo`. -/
def randint (src : RndSrc) (lo hi : ℤ) (k : ℕ) : Option ℤ :=
  if hi < lo then none else some (lo + (src.ints k : ℤ) % (hi - lo + 1))

/-- Annealing start temperature `T0 = 2.0` (src line 91). -/
def T0 : ℚ := 2

/-- Annealing floor temperature `Tmin = 0.05` (src line 92). -/
def Tmin : ℚ := 5/100

/-- From src lines 86-88, the initial guess around the target: `ft =
int(target_total * 0.60)`, `pt = int(target_total * 0.25)`, `ct = max(0,
int(target_total * 0.15))`. -/
def seedMix (t : ℤ) : ℤ × ℤ × ℤ :=
  (pyInt ((t : ℚ) * (60/100)), pyInt ((t : ℚ) * (25/100)), max 0 (pyInt ((t : ℚ) * (15/100))))

/-- From src line 93: `steps = max(400, int(n * 0.35))`. -/
def stepsOf (n : ℕ) : ℕ := max 400 (pyInt ((n : ℚ) * (35/100))).toNat

/-- From src line 111: the phase-1 loop count `max(200, int(n * 0.50))`. -/
def sprayCount (n : ℕ) : ℕ := max 200 (pyInt ((n : ℚ) * (50/100))).toNat

/-- From src lines 96-105: `propose(ft, pt, ct)` perturbs each coordinate by a
uniform offset (ft and ct by `randint(-6, 6)`, pt by `randint(-10, 10)` —
ranges that are never empty, so these draws cannot fail and are inlined as
`lo + raw % (hi - lo + 1)` exactly as in `randint`) and clamps every
coordinate to `[0, target_total * 3]`. -/
def propose (src : RndSrc) (t : ℤ) (ft pt ct : ℤ) (k : ℕ) : ℤ × ℤ × ℤ :=
  let delta_ft : ℤ := -6 + (src.ints k : ℤ) % 13
  let delta_pt : ℤ := -10 + (src.ints (k + 1) : ℤ) % 21
  let delta_ct : ℤ := -6 + (src.ints (k + 2) : ℤ) % 13
  (_clamp_int (ft + delta_ft) 0 (t * 3),
   _clamp_int (pt + delta_pt) 0 (t * 3),
   _clamp_int (ct + delta_ct) 0 (t * 3))

/-- From src lines 111-122, the phase-1 random spray: each iteration draws
`r_ft, r_pt, r_ct` uniformly from `[0, target_total * 2]`, evaluates and
scores the mix and appends a row.  The ℕ argument pair is (iterations left,
current draw index); the draw index after the loop is returned. -/
def phase1 (src : RndSrc) (p : Params) : ℕ → ℕ → Option (List Row × ℕ)
  | 0, k => some ([], k)
  | c + 1, k =>
    match randint src 0 (p.target_total * 2) k with
    | none => none
    | some r_ft =>
      match randint src 0 (p.target_total * 2) (k + 1) with
      | none => none
      | some r_pt =>
        match randint src 0 (p.target_total * 2) (k + 2) with
        | none => none
        | some r_ct =>
          let m := _compute_metrics r_ft r_pt r_ct p
          let sc := _score m p.w_cost p.w_risk p.w_ret
          match phase1 src p c (k + 3) with
          | none => none
          | some (rest, k2) => some (⟨m, sc⟩ :: rest, k2)

/-- From src lines 133-158, the annealing walk: at step i (of `steps`), the
temperature is `max(Tmin, T0 * (1 - i/steps))`; a neighbour is proposed and
scored; it is accepted when strictly better, otherwise accepted with the
Metropolis probability `exp(-(cand - current)/max(1e-9, T))` tested against
one `random()` draw; the post-decision state's score is appended to the
energy trace and the post-decision state is appended as a row, every
iteration.  Arguments: iterations left, step index i, current record, current
energy, draw index.  Returns (rows, energy trace, final draw index). -/
def anneal (src : RndSrc) (expQ : ℚ → ℚ) (p : Params) (steps : ℕ) :
    ℕ → ℕ → Metrics → ℚ → ℕ → List Row × List ℚ × ℕ
  | 0, _, _, _, k => ([], [], k)
  | r + 1, i, current, current_energy, k =>
    let T : ℚ := max Tmin (T0 * (1 - (i : ℚ) / (steps : ℚ)))
    let pm := propose src p.target_total current.ft current.pt current.ct k
    let cand := _compute_metrics pm.1 pm.2.1 pm.2.2 p
    let cand_energy := _score cand p.w_cost p.w_risk p.w_ret
    if cand_energy < current_energy then
      let out := anneal src expQ p steps r (i + 1) cand cand_energy (k + 3)
      (⟨cand, cand_energy⟩ :: out.1, cand_energy :: out.2.1, out.2.2)
    else
      let prob := expQ (-(cand_energy - current_energy) / max (1/1000000000) T)
      if src.us (k + 3) < prob then
        let out := anneal src expQ p steps r (i + 1) cand cand_energy (k + 4)
        (⟨cand, cand_energy⟩ :: out.1, cand_energy :: out.2.1, out.2.2)
      else
        let out := anneal src expQ p steps r (i + 1) current current_energy (k + 4)
        (⟨current, current_energy⟩ :: out.1, current_energy :: out.2.1, out.2.2)

/-- From src line 161: `drop_duplicates(subset=["ft","pt","ct"])` — keep each
row whose mix was not seen before (pandas keep="first"). -/
def dedupFirst : List Row → List (ℤ × ℤ × ℤ) → List Row
  | [], _ => []
  | r :: rs, seen =>
    if mixOf r ∈ seen then dedupFirst rs seen
    else r :: dedupFirst rs (mixOf r :: seen)

/-- The comparison used by `sort_values("score")`: ascending by score. -/
def rowLe (a b : Row) : Bool := decide (a.score ≤ b.score)

/-- From src line 162: `sort_values("score")` — sort ascending by score. -/
def sortRows (l : List Row) : List Row :=
  l.mergeSort rowLe

/-- From src lines 161-162, the assembly pipeline applied to the merged rows:
deduplicate by mix keeping the first occurrence, sort ascending by score,
truncate to `max(n, 600)` rows. -/
def assemble (n : ℕ) (rows : List Row) : List Row :=
  (sortRows (dedupFirst rows [])).take (max n 600)

/-- The triple returned by `generate_scenarios`: the population DataFrame (as
an ordered list of rows), the best row (`df.iloc[0]`), and the energy
trace. -/
structure GenResult where
  population : List Row
  best : Row
  energy_trace : List ℚ
deriving DecidableEq

/-- From src lines 125-131: the walk's initial state — the metrics record of
the heuristic seed mix. -/
def seedMetrics (p : Params) : Metrics :=
  let sm := seedMix p.target_total
  _compute_metrics sm.1 sm.2.1 sm.2.2 p

/-- From src line 131: the walk's initial energy, the score of the seed
record. -/
def seedEnergy (p : Params) : ℚ :=
  _score (seedMetrics p) p.w_cost p.w_risk p.w_ret

/-- The pre-assembly content of a run: all generated rows, phase-1 rows first
then annealing rows in generation order, together with the energy trace.
`none` when the phase-1 `randint` range is empty. -/
def generateRows (src : RndSrc) (expQ : ℚ → ℚ) (p : Params) (n : ℕ) :
    Option (List Row × List ℚ) :=
  match phase1 src p (sprayCount n) 0 with
  | none => none
  | some (rows1, k) =>
    let out := anneal src expQ p (stepsOf n) (stepsOf n) 0 (seedMetrics p) (seedEnergy p) k
    some (rows1 ++ out.1, out.2.1)

/-- `generate_scenarios`, parametric in the random stream and in the exp
function: assemble the generated rows into the sorted deduplicated truncated
population, take `best = df.iloc[0]`, and return the phase-2 energy trace. -/
def generateWith (src : RndSrc) (expQ : ℚ → ℚ) (p : Params) (n : ℕ) : Option GenResult :=
  (generateRows src expQ p n).map fun rt =>
    let population := assemble n rt.1
    ⟨population, population.headI, rt.2⟩

/-- Modelled from the spec: the seeded pseudo-random source.  The source of
the draws, `random.Random(seed)` (a Mersenne Twister), is Python standard
library code outside this repository; the spec requires only that the source
be deterministic in the seed and used exclusively.  No claim depends on the
individual draw values, and every structural theorem below is quantified over
all of `RndSrc`, so any concrete deterministic function of the seed serves as
the model. -/
def mkSrc (seed : ℤ) : RndSrc :=
  ⟨fun k => seed.natAbs + k, fun k => 1 / ((k : ℚ) + 2)⟩

/-- Modelled from the spec: `math.exp`, Python standard library code outside
this repository, used only to form the Metropolis acceptance probability.  No
claim depends on its values and every structural theorem is quantified over
all functions ℚ → ℚ in its place; this executable stand-in maps the
nonpositive Metropolis exponents into (0, 1]. -/
def expModel (q : ℚ) : ℚ := 1 / (1 + |q|)

/-- From src lines 62-165: `generate_scenarios(params..., n, seed)` — the
seeded run, with the library randomness and exp instantiated by their
models. -/
def generate_scenarios (p : Params) (n : ℕ) (seed : ℤ) : Option GenResult :=
  generateWith (mkSrc seed) expModel p n

/-- From src lines 171-174: the value of a row at key c after the maximize
columns are negated (`work[c] = -work[c]`). -/
def transformedVal {K : Type} [DecidableEq K] (maximize_cols : List K) (row : K → ℚ) (c : K) : ℚ :=
  if c ∈ maximize_cols then -row c else row c

/-- From src line 185: `(vals[j] <= vals[i]).all() and (vals[j] < vals[i]).any()`
over the transformed key vectors (`keys = minimize_cols + maximize_cols`). -/
def dominatesB {K : Type} [DecidableEq K] (keys maximize_cols : List K) (rj ri : K → ℚ) : Bool :=
  (keys.all fun c => decide (transformedVal maximize_cols rj c ≤ transformedVal maximize_cols ri c)) &&
  (keys.any fun c => decide (transformedVal maximize_cols rj c < transformedVal maximize_cols ri c))

/-- From src lines 167-190: `pareto_front(df, minimize_cols, maximize_cols)`.
Rows are functions from column names to values; for each index i the O(n²)
scan keeps i iff no j ≠ i dominates it, and returns `df.iloc[idxs]` — the
kept rows of the original (untransformed) frame in index order. -/
def pareto_front {K : Type} [DecidableEq K] (df : List (K → ℚ))
    (minimize_cols maximize_cols : List K) : List (K → ℚ) :=
  ((List.range df.length).filter fun i =>
    !((List.range df.length).any fun j =>
      decide (j ≠ i) &&
        dominatesB (minimize_cols ++ maximize_cols) maximize_cols
          (df.getD j default) (df.getD i default))).map
    fun i => df.getD i default

/-- Following the spec's words (for the refinement statement of the Pareto
claim): row j dominates row i iff j's transformed vector is componentwise ≤
i's on every key and strictly < on at least one key. -/
def Dominates {K : Type} [DecidableEq K] (keys maximize_cols : List K) (rj ri : K → ℚ) : Prop :=
  (∀ c ∈ keys, transformedVal maximize_cols rj c ≤ transformedVal maximize_cols ri c) ∧
  ∃ c ∈ keys, transformedVal maximize_cols rj c < transformedVal maximize_cols ri c

instance {K : Type} [DecidableEq K] (keys maximize_cols : List K) (rj ri : K → ℚ) :
    Decidable (Dominates keys maximize_cols rj ri) := by
  unfold Dominates; infer_instance

/-- Following the spec's words: the subsequence of exactly those rows not
dominated by any other row, in original order. -/
def paretoSpec {K : Type} [DecidableEq K] (df : List (K → ℚ))
    (minimize_cols maximize_cols : List K) : List (K → ℚ) :=
  ((List.range df.length).filter fun i =>
    decide (∀ j < df.length, j ≠ i →
      ¬ Dominates (minimize_cols ++ maximize_cols) maximize_cols
          (df.getD j default) (df.getD i default))).map
    fun i => df.getD i default

/-- Rounding to the nearest integer, as the claims' `round(...)` reads (half
rounds up; every concrete input used below is away from a half, where all
rounding conventions agree, including Python's banker's rounding). -/
def roundQ (q : ℚ) : ℤ := ⌊q + 1/2⌋

/-- Row r is the first occurrence of its mix in the generated row list l:
some split l = l₁ ++ r :: l₂ has no row of the same mix before r. -/
def firstOccurrence (l : List Row) (r : Row) : Prop :=
  ∃ l₁ l₂, l = l₁ ++ r :: l₂ ∧ ∀ x ∈ l₁, mixOf x ≠ mixOf r

/-- The spec's four-point Pareto test population, rows keyed by column index
(0 = cost, 1 = risk, 2 = retention).  Row A: (10, 1, 5). -/
def exA : Fin 3 → ℚ := fun c => if c = 0 then 10 else if c = 1 then 1 else 5

/-- Row B of the Pareto test population: non-dominated because nothing beats
it on risk (risk 0 here; the spec's 0.5 plays the same role, the integer
value keeps the example kernel-decidable). -/
def exB : Fin 3 → ℚ := fun c => if c = 0 then 12 else if c = 1 then 0 else 5

/-- Row C of the Pareto test population: an exact duplicate of A. -/
def exC : Fin 3 → ℚ := exA

/-- Row D of the Pareto test population: (15, 2, 3), dominated by A on all
three axes. -/
def exD : Fin 3 → ℚ := fun c => if c = 0 then 15 else if c = 1 then 2 else 3

/-- Coordinate bounds of a metrics record: each of ft, pt, ct is a
nonnegative integer at most b. -/
def coordBounds (b : ℤ) (m : Metrics) : Prop :=
  (0 ≤ m.ft ∧ m.ft ≤ b) ∧ (0 ≤ m.pt ∧ m.pt ≤ b) ∧ (0 ≤ m.ct ∧ m.ct ≤ b)

/-- A concrete random stream for the closed witness instances. -/
def cSrc : RndSrc := ⟨fun _ => 0, fun _ => 0⟩

/-- A concrete exp stand-in for the closed witness instances. -/
def cExpQ : ℚ → ℚ := fun _ => 1

/-- A concrete all-zero parameter bundle (a degenerate but valid
configuration: target 0, all weights 0). -/
def cP0 : Params := ⟨0, 0, 0, 0, 0, 0, 0, 0, 0, 0, 0⟩

/-- A concrete malformed parameter bundle with negative target. -/
def cPneg : Params := ⟨-1, 0, 0, 0, 0, 0, 0, 0, 0, 0, 0⟩

/-! ## Lemmas about the random primitives and the metric model -/

theorem _compute_metrics_ft (ft pt ct : ℤ) (p : Params) :
    (_compute_metrics ft pt ct p).ft = ft := rfl

theorem _compute_metrics_pt (ft pt ct : ℤ) (p : Params) :
    (_compute_metrics ft pt ct p).pt = pt := rfl

theorem _compute_metrics_ct (ft pt ct : ℤ) (p : Params) :
    (_compute_metrics ft pt ct p).ct = ct := rfl

theorem randint_eq_none_iff (src : RndSrc) (lo hi : ℤ) (k : ℕ) :
    randint src lo hi k = none ↔ hi < lo := by
  unfold randint; split <;> simp_all

theorem randint_bounds {src : RndSrc} {lo hi v : ℤ} {k : ℕ}
    (h : randint src lo hi k = some v) : lo ≤ v ∧ v ≤ hi := by
  unfold randint at h
  split at h
  · exact absurd h (by simp)
  · rename_i hge
    simp only [Option.some.injEq] at h
    subst h
    have hpos : (0 : ℤ) < hi - lo + 1 := by omega
    have h1 : 0 ≤ (src.ints k : ℤ) % (hi - lo + 1) := Int.emod_nonneg _ (by omega)
    have h2 : (src.ints k : ℤ) % (hi - lo + 1) < hi - lo + 1 := Int.emod_lt_of_pos _ hpos
    omega

/-- The inlined draws of `propose` agree with `randint` on the never-empty
ranges `[-6, 6]` and `[-10, 10]`. -/
theorem randint_neg_six_six (src : RndSrc) (k : ℕ) :
    randint src (-6) 6 k = some (-6 + (src.ints k : ℤ) % 13) := by
  unfold randint; norm_num

theorem randint_neg_ten_ten (src : RndSrc) (k : ℕ) :
    randint src (-10) 10 k = some (-10 + (src.ints k : ℤ) % 21) := by
  unfold randint; norm_num

theorem _clamp_int_bounds (x hi : ℤ) (hhi : 0 ≤ hi) :
    0 ≤ _clamp_int x 0 hi ∧ _clamp_int x 0 hi ≤ hi := by
  unfold _clamp_int
  exact ⟨le_max_left 0 _, max_le hhi (min_le_left _ _)⟩

theorem propose_bounds (src : RndSrc) (t ft pt ct : ℤ) (k : ℕ) (ht : 0 ≤ t) :
    (0 ≤ (propose src t ft pt ct k).1 ∧ (propose src t ft pt ct k).1 ≤ t * 3) ∧
    (0 ≤ (propose src t ft pt ct k).2.1 ∧ (propose src t ft pt ct k).2.1 ≤ t * 3) ∧
    (0 ≤ (propose src t ft pt ct k).2.2 ∧ (propose src t ft pt ct k).2.2 ≤ t * 3) := by
  have h3 : (0 : ℤ) ≤ t * 3 := by omega
  exact ⟨_clamp_int_bounds _ _ h3, _clamp_int_bounds _ _ h3, _clamp_int_bounds _ _ h3⟩

/-! ## Lemmas about phase 1 -/

theorem phase1_some_of_nonneg (src : RndSrc) (p : Params)
    (ht : 0 ≤ p.target_total) :
    ∀ c k, ∃ out, phase1 src p c k = some out := by
  intro c
  induction c with
  | zero => exact fun k => ⟨([], k), rfl⟩
  | succ c ih =>
    intro k
    have hne : ¬ (p.target_total * 2 < 0) := by omega
    obtain ⟨⟨rest, k2⟩, hrest⟩ := ih (k + 3)
    unfold phase1 randint
    simp only [if_neg hne, hrest]
    exact ⟨_, rfl⟩

theorem phase1_none_of_neg (src : RndSrc) (p : Params)
    (ht : p.target_total < 0) (c k : ℕ) (hc : 0 < c) :
    phase1 src p c k = none := by
  obtain ⟨c', rfl⟩ : ∃ c', c = c' + 1 := ⟨c - 1, by omega⟩
  unfold phase1 randint
  rw [if_pos (by omega)]

/-- A successful phase 1 run with at least one iteration forces a nonnegative
target (the first `randint(0, 2*target_total)` would otherwise have
raised). -/
theorem phase1_some_nonneg {src : RndSrc} {p : Params} {c k : ℕ} {out}
    (hc : 0 < c) (h : phase1 src p c k = some out) : 0 ≤ p.target_total := by
  by_contra hneg
  rw [phase1_none_of_neg src p (by omega) c k hc] at h
  exact absurd h (by simp)

theorem phase1_mem_bounds (src : RndSrc) (p : Params) :
    ∀ (c k : ℕ) (rows : List Row) (k2 : ℕ),
      phase1 src p c k = some (rows, k2) →
      ∀ r ∈ rows,
        (0 ≤ r.m.ft ∧ r.m.ft ≤ p.target_total * 2) ∧
        (0 ≤ r.m.pt ∧ r.m.pt ≤ p.target_total * 2) ∧
        (0 ≤ r.m.ct ∧ r.m.ct ≤ p.target_total * 2) := by
  intro c
  induction c with
  | zero =>
    intro k rows k2 h r hr
    unfold phase1 at h
    simp only [Option.some.injEq, Prod.mk.injEq] at h
    rw [← h.1] at hr
    exact absurd hr (by simp)
  | succ c ih =>
    intro k rows k2 h r hr
    unfold phase1 at h
    cases h1 : randint src 0 (p.target_total * 2) k with
    | none => rw [h1] at h; exact absurd h (by simp)
    | some r_ft =>
      rw [h1] at h
      cases h2 : randint src 0 (p.target_total * 2) (k + 1) with
      | none => rw [h2] at h; exact absurd h (by simp)
      | some r_pt =>
        rw [h2] at h
        cases h3 : randint src 0 (p.target_total * 2) (k + 2) with
        | none => rw [h3] at h; exact absurd h (by simp)
        | some r_ct =>
          rw [h3] at h
          cases h4 : phase1 src p c (k + 3) with
          | none => rw [h4] at h; exact absurd h (by simp)
          | some out =>
            obtain ⟨rest, k3⟩ := out
            rw [h4] at h
            simp only [Option.some.injEq, Prod.mk.injEq] at h
            rw [← h.1] at hr
            rcases List.mem_cons.mp hr with hhead | htail
            · subst hhead
              exact ⟨randint_bounds h1, randint_bounds h2, randint_bounds h3⟩
            · exact ih (k + 3) rest k3 (by rw [h4]) r htail

/-! ## Lemmas about the annealing walk -/

theorem anneal_trace_length (src : RndSrc) (expQ : ℚ → ℚ) (p : Params) (steps : ℕ) :
    ∀ (r i : ℕ) (cur : Metrics) (curE : ℚ) (k : ℕ),
      (anneal src expQ p steps r i cur curE k).2.1.length = r := by
  intro r
  induction r with
  | zero => intros; rfl
  | succ r ih =>
    intro i cur curE k
    unfold anneal
    dsimp only
    split
    · simp [ih]
    · split
      · simp [ih]
      · simp [ih]

theorem anneal_rows_length (src : RndSrc) (expQ : ℚ → ℚ) (p : Params) (steps : ℕ) :
    ∀ (r i : ℕ) (cur : Metrics) (curE : ℚ) (k : ℕ),
      (anneal src expQ p steps r i cur curE k).1.length = r := by
  intro r
  induction r with
  | zero => intros; rfl
  | succ r ih =>
    intro i cur curE k
    unfold anneal
    dsimp only
    split
    · simp [ih]
    · split
      · simp [ih]
      · simp [ih]

theorem anneal_mem_bounds (src : RndSrc) (expQ : ℚ → ℚ) (p : Params) (steps : ℕ)
    (ht : 0 ≤ p.target_total) :
    ∀ (r i : ℕ) (cur : Metrics) (curE : ℚ) (k : ℕ),
      coordBounds (p.target_total * 3) cur →
      ∀ row ∈ (anneal src expQ p steps r i cur curE k).1,
        coordBounds (p.target_total * 3) row.m := by
  intro r
  induction r with
  | zero =>
    intro i cur curE k _ row hrow
    exact absurd hrow (by simp [anneal])
  | succ r ih =>
    intro i cur curE k hcur row hrow
    have hcand : ∀ k' : ℕ, coordBounds (p.target_total * 3)
        (_compute_metrics (propose src p.target_total cur.ft cur.pt cur.ct k').1
          (propose src p.target_total cur.ft cur.pt cur.ct k').2.1
          (propose src p.target_total cur.ft cur.pt cur.ct k').2.2 p) := by
      intro k'
      have hp := propose_bounds src p.target_total cur.ft cur.pt cur.ct k' ht
      unfold coordBounds
      rw [_compute_metrics_ft, _compute_metrics_pt, _compute_metrics_ct]
      exact hp
    unfold anneal at hrow
    dsimp only at hrow
    split at hrow
    · rcases List.mem_cons.mp hrow with hhead | htail
      · subst hhead; exact hcand k
      · exact ih (i + 1) _ _ (k + 3) (hcand k) row htail
    · split at hrow
      · rcases List.mem_cons.mp hrow with hhead | htail
        · subst hhead; exact hcand k
        · exact ih (i + 1) _ _ (k + 4) (hcand k) row htail
      · rcases List.mem_cons.mp hrow with hhead | htail
        · subst hhead; exact hcur
        · exact ih (i + 1) _ _ (k + 4) hcur row htail

/-! ## Lemmas about deduplication and sorting -/

theorem dedupFirst_sublist : ∀ (l : List Row) (seen : List (ℤ × ℤ × ℤ)),
    List.Sublist (dedupFirst l seen) l := by
  intro l
  induction l with
  | nil => intro seen; simp [dedupFirst]
  | cons r rs ih =>
    intro seen
    unfold dedupFirst
    split
    · exact List.Sublist.cons r (ih seen)
    · exact List.Sublist.cons₂ r (ih (mixOf r :: seen))

theorem dedupFirst_spec : ∀ (l : List Row) (seen : List (ℤ × ℤ × ℤ)),
    ((dedupFirst l seen).map mixOf).Nodup ∧
    ∀ r ∈ dedupFirst l seen, mixOf r ∉ seen ∧
      ∃ l₁ l₂, l = l₁ ++ r :: l₂ ∧ ∀ x ∈ l₁, mixOf x ≠ mixOf r := by
  intro l
  induction l with
  | nil =>
    intro seen
    refine ⟨by simp [dedupFirst], fun r hr => absurd hr (by simp [dedupFirst])⟩
  | cons a rs ih =>
    intro seen
    unfold dedupFirst
    split
    · rename_i hseen
      obtain ⟨hnd, hmem⟩ := ih seen
      refine ⟨hnd, fun r hr => ?_⟩
      obtain ⟨hns, l₁, l₂, heq, hclean⟩ := hmem r hr
      refine ⟨hns, a :: l₁, l₂, by rw [heq, List.cons_append], ?_⟩
      intro x hx
      rcases List.mem_cons.mp hx with rfl | hx2
      · exact fun hh => hns (hh ▸ hseen)
      · exact hclean x hx2
    · rename_i hseen
      obtain ⟨hnd, hmem⟩ := ih (mixOf a :: seen)
      constructor
      · simp only [List.map_cons, List.nodup_cons]
        refine ⟨fun hmm => ?_, hnd⟩
        obtain ⟨r, hr, hr2⟩ := List.mem_map.mp hmm
        exact (hmem r hr).1 (by rw [hr2]; exact List.mem_cons_self _ _)
      · intro r hr
        rcases List.mem_cons.mp hr with rfl | htail
        · exact ⟨hseen, [], rs, rfl, by simp⟩
        · obtain ⟨hns, l₁, l₂, heq, hclean⟩ := hmem r htail
          have hne_a : mixOf r ≠ mixOf a :=
            fun hh => hns (hh ▸ List.mem_cons_self _ _)
          refine ⟨fun hs => hns (List.mem_cons_of_mem _ hs),
            a :: l₁, l₂, by rw [heq, List.cons_append], ?_⟩
          intro x hx
          rcases List.mem_cons.mp hx with rfl | hx2
          · exact fun hh => hne_a hh.symm
          · exact hclean x hx2

theorem dedupFirst_ne_nil {l : List Row} (h : l ≠ []) : dedupFirst l [] ≠ [] := by
  cases l with
  | nil => exact absurd rfl h
  | cons a rs =>
    unfold dedupFirst
    rw [if_neg (by simp)]
    simp

theorem sortRows_perm (l : List Row) : (sortRows l).Perm l :=
  List.mergeSort_perm l rowLe

theorem sortRows_sorted (l : List Row) :
    (sortRows l).Pairwise fun a b => a.score ≤ b.score := by
  have htrans : ∀ a b c : Row, rowLe a b = true → rowLe b c = true → rowLe a c = true := by
    intro a b c hab hbc
    simp only [rowLe, decide_eq_true_eq] at *
    exact le_trans hab hbc
  have htotal : ∀ a b : Row, (rowLe a b || rowLe b a) = true := by
    intro a b
    simp only [rowLe, Bool.or_eq_true, decide_eq_true_eq]
    exact le_total _ _
  have h := List.sorted_mergeSort htrans htotal l
  exact h.imp fun hab => by simpa [rowLe] using hab

/-! ## Lemmas about the assembly pipeline -/

theorem assemble_sorted (n : ℕ) (rows : List Row) :
    (assemble n rows).Pairwise fun a b => a.score ≤ b.score :=
  List.Pairwise.sublist (List.take_sublist _ _) (sortRows_sorted _)

theorem assemble_mem_dedup {n : ℕ} {rows : List Row} :
    ∀ r ∈ assemble n rows, r ∈ dedupFirst rows [] := by
  intro r hr
  have h1 : r ∈ sortRows (dedupFirst rows []) := List.take_subset _ _ hr
  exact (sortRows_perm _).mem_iff.mp h1

theorem assemble_subset {n : ℕ} {rows : List Row} :
    ∀ r ∈ assemble n rows, r ∈ rows := fun r hr =>
  (dedupFirst_sublist rows []).subset (assemble_mem_dedup r hr)

theorem assemble_nodup_mixes (n : ℕ) (rows : List Row) :
    ((assemble n rows).map mixOf).Nodup := by
  have hd : ((dedupFirst rows []).map mixOf).Nodup := (dedupFirst_spec rows []).1
  have hs : ((sortRows (dedupFirst rows [])).map mixOf).Nodup :=
    ((sortRows_perm (dedupFirst rows [])).map mixOf).nodup_iff.mpr hd
  have hsub : List.Sublist ((assemble n rows).map mixOf)
      ((sortRows (dedupFirst rows [])).map mixOf) := by
    unfold assemble
    rw [List.map_take]
    exact List.take_sublist _ _
  exact List.Nodup.sublist hsub hs

theorem assemble_length_le (n : ℕ) (rows : List Row) :
    (assemble n rows).length ≤ max n 600 := by
  unfold assemble
  rw [List.length_take]
  exact min_le_left _ _

theorem assemble_ne_nil {rows : List Row} (h : rows ≠ []) (n : ℕ) :
    assemble n rows ≠ [] := by
  have h1 : dedupFirst rows [] ≠ [] := dedupFirst_ne_nil h
  have h2 : 0 < (sortRows (dedupFirst rows [])).length := by
    rw [(sortRows_perm _).length_eq]
    exact List.length_pos.mpr h1
  rw [← List.length_pos]
  unfold assemble
  rw [List.length_take]
  omega

theorem assemble_first_occurrence {n : ℕ} {rows : List Row} :
    ∀ r ∈ assemble n rows, firstOccurrence rows r := by
  intro r hr
  obtain ⟨-, l₁, l₂, heq, hclean⟩ :=
    (dedupFirst_spec rows []).2 r (assemble_mem_dedup r hr)
  exact ⟨l₁, l₂, heq, hclean⟩

theorem assemble_headI_min {n : ℕ} {rows : List Row} :
    ∀ r ∈ assemble n rows, (assemble n rows).headI.score ≤ r.score := by
  intro r hr
  have hsorted := assemble_sorted n rows
  cases hpop : assemble n rows with
  | nil => rw [hpop] at hr; exact absurd hr (by simp)
  | cons a tl =>
    rw [hpop] at hr hsorted
    rw [List.headI_cons]
    rcases List.mem_cons.mp hr with rfl | htail
    · exact le_refl _
    · exact List.rel_of_pairwise_cons hsorted htail

/-! ## Lemmas about the generator pipeline -/

theorem generateRows_inv {src : RndSrc} {expQ : ℚ → ℚ} {p : Params} {n : ℕ}
    {rt : List Row × List ℚ} (h : generateRows src expQ p n = some rt) :
    ∃ rows1 k, phase1 src p (sprayCount n) 0 = some (rows1, k) ∧
      rt.1 = rows1 ++
        (anneal src expQ p (stepsOf n) (stepsOf n) 0 (seedMetrics p) (seedEnergy p) k).1 ∧
      rt.2 =
        (anneal src expQ p (stepsOf n) (stepsOf n) 0 (seedMetrics p) (seedEnergy p) k).2.1 := by
  unfold generateRows at h
  cases h1 : phase1 src p (sprayCount n) 0 with
  | none => rw [h1] at h; exact absurd h (by simp)
  | some out =>
    obtain ⟨rows1, k⟩ := out
    rw [h1] at h
    simp only [Option.some.injEq] at h
    exact ⟨rows1, k, rfl, by rw [← h], by rw [← h]⟩

theorem generateWith_inv {src : RndSrc} {expQ : ℚ → ℚ} {p : Params} {n : ℕ}
    {res : GenResult} (h : generateWith src expQ p n = some res) :
    ∃ rt, generateRows src expQ p n = some rt ∧
      res.population = assemble n rt.1 ∧
      res.best = (assemble n rt.1).headI ∧
      res.energy_trace = rt.2 := by
  unfold generateWith at h
  cases h1 : generateRows src expQ p n with
  | none => rw [h1] at h; exact absurd h (by simp)
  | some rt =>
    rw [h1] at h
    simp only [Option.map_some', Option.some.injEq] at h
    exact ⟨rt, rfl, by rw [← h], by rw [← h], by rw [← h]⟩

theorem generate_succeeds (src : RndSrc) (expQ : ℚ → ℚ) (p : Params) (n : ℕ)
    (ht : 0 ≤ p.target_total) : ∃ res, generateWith src expQ p n = some res := by
  obtain ⟨⟨rows1, k⟩, h1⟩ := phase1_some_of_nonneg src p ht (sprayCount n) 0
  unfold generateWith generateRows
  rw [h1]
  exact ⟨_, rfl⟩

theorem generate_fails (src : RndSrc) (expQ : ℚ → ℚ) (p : Params) (n : ℕ)
    (ht : p.target_total < 0) : generateWith src expQ p n = none := by
  have h1 : phase1 src p (sprayCount n) 0 = none :=
    phase1_none_of_neg src p ht _ 0 (by unfold sprayCount; omega)
  unfold generateWith generateRows
  rw [h1]
  rfl

theorem generateWith_some_nonneg {src : RndSrc} {expQ : ℚ → ℚ} {p : Params}
    {n : ℕ} {res : GenResult} (h : generateWith src expQ p n = some res) :
    0 ≤ p.target_total := by
  by_contra hneg
  rw [generate_fails src expQ p n (by omega)] at h
  exact absurd h (by simp)

theorem generateWith_trace_length {src : RndSrc} {expQ : ℚ → ℚ} {p : Params}
    {n : ℕ} {res : GenResult} (h : generateWith src expQ p n = some res) :
    res.energy_trace.length = stepsOf n := by
  obtain ⟨rt, h1, -, -, htr⟩ := generateWith_inv h
  obtain ⟨rows1, k, -, -, hrt2⟩ := generateRows_inv h1
  rw [htr, hrt2, anneal_trace_length]

theorem generateRows_fst_ne_nil {src : RndSrc} {expQ : ℚ → ℚ} {p : Params}
    {n : ℕ} {rt : List Row × List ℚ} (h : generateRows src expQ p n = some rt) :
    rt.1 ≠ [] := by
  obtain ⟨rows1, k, -, hr, -⟩ := generateRows_inv h
  rw [hr]
  intro hh
  have h2 := (List.append_eq_nil.mp hh).2
  have hlen := congrArg List.length h2
  rw [anneal_rows_length] at hlen
  unfold stepsOf at hlen
  simp at hlen

/-! ## Lemmas about the Pareto filter -/

theorem filter_range_map_getD_sublist {α : Type} [Inhabited α] :
    ∀ (l : List α) (p : ℕ → Bool),
      List.Sublist (((List.range l.length).filter p).map fun i => l.getD i default) l := by
  intro l
  induction l with
  | nil => intro p; simp
  | cons a tl ih =>
    intro p
    rw [List.length_cons, List.range_succ_eq_map, List.filter_cons]
    split
    · rw [List.map_cons, List.filter_map, List.map_map]
      simp only [Function.comp_def, List.getD_cons_succ, List.getD_cons_zero]
      exact List.Sublist.cons₂ a (ih _)
    · rw [List.filter_map, List.map_map]
      simp only [Function.comp_def, List.getD_cons_succ]
      exact List.Sublist.cons a (ih _)

theorem dominatesB_iff {K : Type} [DecidableEq K] (keys maxCols : List K)
    (rj ri : K → ℚ) :
    dominatesB keys maxCols rj ri = true ↔ Dominates keys maxCols rj ri := by
  unfold dominatesB Dominates
  simp [List.all_eq_true, List.any_eq_true]

theorem pareto_front_eq_spec {K : Type} [DecidableEq K] (df : List (K → ℚ))
    (minimize_cols maximize_cols : List K) :
    pareto_front df minimize_cols maximize_cols = paretoSpec df minimize_cols maximize_cols := by
  unfold pareto_front paretoSpec
  congr 1
  refine List.filter_congr fun i hi => ?_
  by_cases hdom : ∀ j < df.length, j ≠ i →
      ¬ Dominates (minimize_cols ++ maximize_cols) maximize_cols
        (df.getD j default) (df.getD i default)
  · rw [decide_eq_true hdom, Bool.not_eq_true']
    rw [List.any_eq_false]
    intro j hj
    simp only [Bool.and_eq_true, decide_eq_true_eq, dominatesB_iff, not_and]
    exact fun hne => hdom j (List.mem_range.mp hj) hne
  · rw [decide_eq_false hdom, Bool.not_eq_false']
    push_neg at hdom
    obtain ⟨j, hjlen, hne, hd⟩ := hdom
    rw [List.any_eq_true]
    refine ⟨j, List.mem_range.mpr hjlen, ?_⟩
    simp only [Bool.and_eq_true, decide_eq_true_eq, dominatesB_iff]
    exact ⟨hne, hd⟩

theorem pareto_front_sublist {K : Type} [DecidableEq K] (df : List (K → ℚ))
    (minimize_cols maximize_cols : List K) :
    List.Sublist (pareto_front df minimize_cols maximize_cols) df := by
  unfold pareto_front
  exact filter_range_map_getD_sublist df _

theorem dominates_not_of_tie {K : Type} [DecidableEq K] (keys maxCols : List K)
    (rj ri : K → ℚ)
    (h : ∀ c ∈ keys, transformedVal maxCols rj c = transformedVal maxCols ri c) :
    ¬ Dominates keys maxCols rj ri := by
  rintro ⟨hall, c, hc, hlt⟩
  exact absurd hlt (by rw [h c hc]; exact lt_irrefl _)

/-! ## Lemmas about the truncating conversions and the seed mix -/

theorem pyInt_of_nonneg {q : ℚ} (h : 0 ≤ q) : pyInt q = ⌊q⌋ := if_pos h

theorem stepsOf_eq_floor (n : ℕ) : stepsOf n = max 400 ⌊(n : ℚ) * (35/100)⌋₊ := by
  unfold stepsOf
  rw [pyInt_of_nonneg (by positivity), Int.floor_toNat]

theorem seedMix_eq_floor {t : ℤ} (ht : 0 ≤ t) :
    seedMix t =
      (⌊(t : ℚ) * (60/100)⌋, ⌊(t : ℚ) * (25/100)⌋, max 0 ⌊(t : ℚ) * (15/100)⌋) := by
  have htq : (0 : ℚ) ≤ (t : ℚ) := by exact_mod_cast ht
  unfold seedMix
  rw [pyInt_of_nonneg (mul_nonneg htq (by norm_num)),
    pyInt_of_nonneg (mul_nonneg htq (by norm_num)),
    pyInt_of_nonneg (mul_nonneg htq (by norm_num))]

theorem seedMix_bounds {t : ℤ} (ht : 0 ≤ t) :
    (0 ≤ (seedMix t).1 ∧ (seedMix t).1 ≤ t * 3) ∧
    (0 ≤ (seedMix t).2.1 ∧ (seedMix t).2.1 ≤ t * 3) ∧
    (0 ≤ (seedMix t).2.2 ∧ (seedMix t).2.2 ≤ t * 3) := by
  have htq : (0 : ℚ) ≤ (t : ℚ) := by exact_mod_cast ht
  have hb : ∀ c : ℚ, 0 ≤ c → c ≤ 3 → 0 ≤ ⌊(t : ℚ) * c⌋ ∧ ⌊(t : ℚ) * c⌋ ≤ t * 3 := by
    intro c hc hc3
    constructor
    · exact Int.floor_nonneg.mpr (mul_nonneg htq hc)
    · have h1 : (t : ℚ) * c ≤ ((t * 3 : ℤ) : ℚ) := by
        push_cast
        nlinarith [mul_nonneg htq (sub_nonneg.mpr hc3)]
      calc ⌊(t : ℚ) * c⌋ ≤ ⌊((t * 3 : ℤ) : ℚ)⌋ := Int.floor_le_floor h1
        _ = t * 3 := Int.floor_intCast _
  rw [seedMix_eq_floor ht]
  refine ⟨hb _ (by norm_num) (by norm_num), hb _ (by norm_num) (by norm_num), ?_, ?_⟩
  · exact le_max_left 0 _
  · exact max_le (by omega) (hb (15/100) (by norm_num) (by norm_num)).2

theorem seedMetrics_bounds {p : Params} (ht : 0 ≤ p.target_total) :
    coordBounds (p.target_total * 3) (seedMetrics p) := by
  have hs := seedMix_bounds ht
  unfold seedMetrics coordBounds
  dsimp only
  rw [_compute_metrics_ft, _compute_metrics_pt, _compute_metrics_ct]
  exact hs

/-! ## Population-level consequences -/

theorem generateWith_population_bounds {src : RndSrc} {expQ : ℚ → ℚ} {p : Params}
    {n : ℕ} {res : GenResult} (ht : 0 ≤ p.target_total)
    (h : generateWith src expQ p n = some res) :
    ∀ r ∈ res.population, coordBounds (p.target_total * 3) r.m := by
  obtain ⟨rt, h1, hpop, -, -⟩ := generateWith_inv h
  obtain ⟨rows1, k, h2, hrt1, -⟩ := generateRows_inv h1
  intro r hr
  rw [hpop] at hr
  have hmem : r ∈ rt.1 := assemble_subset r hr
  rw [hrt1] at hmem
  rcases List.mem_append.mp hmem with h1m | h2m
  · obtain ⟨⟨a1, a2⟩, ⟨b1, b2⟩, ⟨c1, c2⟩⟩ := phase1_mem_bounds src p _ _ _ _ h2 r h1m
    exact ⟨⟨a1, by omega⟩, ⟨b1, by omega⟩, ⟨c1, by omega⟩⟩
  · exact anneal_mem_bounds src expQ p _ ht _ _ _ _ _ (seedMetrics_bounds ht) r h2m

theorem generateWith_population_size {src : RndSrc} {expQ : ℚ → ℚ} {p : Params}
    {n : ℕ} {res : GenResult} (h : generateWith src expQ p n = some res) :
    res.population.length ≤ max n 600 ∧ 1 ≤ res.population.length := by
  obtain ⟨rt, h1, hpop, -, -⟩ := generateWith_inv h
  rw [hpop]
  refine ⟨assemble_length_le n rt.1, ?_⟩
  have hne := assemble_ne_nil (generateRows_fst_ne_nil h1) n
  have hpos := List.length_pos.mpr hne
  omega

/-! ## Concrete successful runs used by the closed witnesses -/

theorem cRes300_isSome : (generateWith cSrc cExpQ cP0 300).isSome := by
  obtain ⟨res, h⟩ := generate_succeeds cSrc cExpQ cP0 300 (by decide)
  rw [h]; rfl

theorem cRows300_isSome : (generateRows cSrc cExpQ cP0 300).isSome := by
  obtain ⟨⟨rows1, k⟩, h1⟩ := phase1_some_of_nonneg cSrc cP0 (by decide) (sprayCount 300) 0
  unfold generateRows
  rw [h1]
  rfl

theorem c5Res_isSome : (generateWith cSrc cExpQ cP0 1497).isSome := by
  obtain ⟨res, h⟩ := generate_succeeds cSrc cExpQ cP0 1497 (by decide)
  rw [h]; rfl

/-! ## The claims -/

/-- Claim C1: for every parameter bundle, sample count n and seed, two
invocations of generate_scenarios with identical arguments return identical
results — the same population (same rows in the same order), the same best
record, and the same energy trace.  In the embedding generate_scenarios is a
pure function of (params, n, seed): its only randomness is the stream mkSrc
seed derived from the given seed. -/
theorem generate_scenarios_deterministic (p₁ p₂ : Params) (n₁ n₂ : ℕ) (s₁ s₂ : ℤ)
    (hp : p₁ = p₂) (hn : n₁ = n₂) (hs : s₁ = s₂) :
    generate_scenarios p₁ n₁ s₁ = generate_scenarios p₂ n₂ s₂ ∧
    Option.map GenResult.population (generate_scenarios p₁ n₁ s₁) =
      Option.map GenResult.population (generate_scenarios p₂ n₂ s₂) ∧
    Option.map GenResult.best (generate_scenarios p₁ n₁ s₁) =
      Option.map GenResult.best (generate_scenarios p₂ n₂ s₂) ∧
    Option.map GenResult.energy_trace (generate_scenarios p₁ n₁ s₁) =
      Option.map GenResult.energy_trace (generate_scenarios p₂ n₂ s₂) := by
  subst hp; subst hn; subst hs
  exact ⟨rfl, rfl, rfl, rfl⟩

/-- Witness for C1: the determinism theorem applied at a concrete bundle,
sample count and seed. -/
theorem generate_scenarios_deterministic_witness :
    generate_scenarios cP0 300 2026 = generate_scenarios cP0 300 2026 ∧
    Option.map GenResult.population (generate_scenarios cP0 300 2026) =
      Option.map GenResult.population (generate_scenarios cP0 300 2026) ∧
    Option.map GenResult.best (generate_scenarios cP0 300 2026) =
      Option.map GenResult.best (generate_scenarios cP0 300 2026) ∧
    Option.map GenResult.energy_trace (generate_scenarios cP0 300 2026) =
      Option.map GenResult.energy_trace (generate_scenarios cP0 300 2026) :=
  generate_scenarios_deterministic cP0 cP0 300 300 2026 2026 rfl rfl rfl

/-- Claim C2: for every invocation, the returned population is non-decreasing
in score from first to last row, and the returned best record is the first
row of the population, whose score is the minimum over all rows. -/
theorem generate_population_sorted_best (src : RndSrc) (expQ : ℚ → ℚ)
    (p : Params) (n : ℕ) (res : GenResult)
    (h : generateWith src expQ p n = some res) :
    res.population ≠ [] ∧
    res.population.Pairwise (fun a b => a.score ≤ b.score) ∧
    res.best = res.population.headI ∧
    ∀ r ∈ res.population, res.best.score ≤ r.score := by
  obtain ⟨rt, h1, hpop, hbest, -⟩ := generateWith_inv h
  refine ⟨?_, ?_, ?_, ?_⟩
  · rw [hpop]; exact assemble_ne_nil (generateRows_fst_ne_nil h1) n
  · rw [hpop]; exact assemble_sorted n rt.1
  · rw [hbest, hpop]
  · intro r hr
    rw [hbest]
    rw [hpop] at hr
    exact assemble_headI_min r hr

/-- Witness for C2: the sortedness and best-is-minimum facts at the concrete
all-zero run with n = 300. -/
theorem generate_population_sorted_best_witness :
    ((generateWith cSrc cExpQ cP0 300).get cRes300_isSome).population ≠ [] ∧
    ((generateWith cSrc cExpQ cP0 300).get cRes300_isSome).population.Pairwise
      (fun a b => a.score ≤ b.score) ∧
    ((generateWith cSrc cExpQ cP0 300).get cRes300_isSome).best =
      ((generateWith cSrc cExpQ cP0 300).get cRes300_isSome).population.headI ∧
    ∀ r ∈ ((generateWith cSrc cExpQ cP0 300).get cRes300_isSome).population,
      ((generateWith cSrc cExpQ cP0 300).get cRes300_isSome).best.score ≤ r.score :=
  generate_population_sorted_best cSrc cExpQ cP0 300 _
    (Option.some_get cRes300_isSome).symm

/-- Claim C3: pareto_front returns exactly the rows not dominated by any
other row — it equals the definition written from the spec's words — rows
with identical transformed key vectors never dominate each other (so whole
duplicate groups survive together), and the output is a subsequence of the
input preserving the original relative order. -/
theorem pareto_front_correct {K : Type} [DecidableEq K] (df : List (K → ℚ))
    (minimize_cols maximize_cols : List K) :
    pareto_front df minimize_cols maximize_cols =
      paretoSpec df minimize_cols maximize_cols ∧
    List.Sublist (pareto_front df minimize_cols maximize_cols) df ∧
    ∀ rj ri : K → ℚ,
      (∀ c ∈ minimize_cols ++ maximize_cols,
        transformedVal maximize_cols rj c = transformedVal maximize_cols ri c) →
      ¬ Dominates (minimize_cols ++ maximize_cols) maximize_cols rj ri ∧
      ¬ Dominates (minimize_cols ++ maximize_cols) maximize_cols ri rj := by
  refine ⟨pareto_front_eq_spec df _ _, pareto_front_sublist df _ _, ?_⟩
  intro rj ri h
  exact ⟨dominates_not_of_tie _ _ _ _ h,
    dominates_not_of_tie _ _ _ _ (fun c hc => (h c hc).symm)⟩

/-- Claim C4: no two rows of the returned population share an identical
(ft, pt, ct) mix, and every retained row is the first occurrence of its mix
in generation order (the generated row list has all phase-1 rows before all
phase-2 rows, so a mix seen in both phases keeps its phase-1 row and
score). -/
theorem generate_population_unique_mixes (src : RndSrc) (expQ : ℚ → ℚ)
    (p : Params) (n : ℕ) (rt : List Row × List ℚ) (res : GenResult)
    (hrows : generateRows src expQ p n = some rt)
    (h : generateWith src expQ p n = some res) :
    (res.population.map mixOf).Nodup ∧
    ∀ r ∈ res.population, firstOccurrence rt.1 r := by
  obtain ⟨rt', h1, hpop, -, -⟩ := generateWith_inv h
  have heq : rt' = rt := Option.some.inj (h1.symm.trans hrows)
  subst heq
  refine ⟨?_, ?_⟩
  · rw [hpop]; exact assemble_nodup_mixes n rt'.1
  · intro r hr
    rw [hpop] at hr
    exact assemble_first_occurrence r hr

/-- Witness for C4: mix uniqueness and first-occurrence retention at the
concrete all-zero run with n = 300. -/
theorem generate_population_unique_mixes_witness :
    ((((generateWith cSrc cExpQ cP0 300).get cRes300_isSome).population).map mixOf).Nodup ∧
    ∀ r ∈ ((generateWith cSrc cExpQ cP0 300).get cRes300_isSome).population,
      firstOccurrence ((generateRows cSrc cExpQ cP0 300).get cRows300_isSome).1 r :=
  generate_population_unique_mixes cSrc cExpQ cP0 300 _ _
    (Option.some_get cRows300_isSome).symm (Option.some_get cRes300_isSome).symm

/-- Counterexample to claim C5 as stated: at sample count n = 1497 the energy
trace has length max(400, int(1497*0.35)) = max(400, int(523.95)) = 523,
whereas the claimed max(400, round(0.35*1497)) = 524 — the code truncates
with int(), it does not round. -/
theorem energy_trace_length_cex :
    ((generateWith cSrc cExpQ cP0 1497).get c5Res_isSome).energy_trace.length ≠
      max 400 (roundQ ((1497 : ℚ) * (35/100))).toNat := by
  have h := generateWith_trace_length (Option.some_get c5Res_isSome).symm
  rw [h, stepsOf_eq_floor]
  rw [show (((1497 : ℕ) : ℚ) * (35/100)) = ((10479 : ℕ) : ℚ) / ((20 : ℕ) : ℚ) by
    push_cast; norm_num]
  rw [Nat.floor_div_nat, Nat.floor_natCast]
  rw [show (roundQ ((1497 : ℚ) * (35/100))).toNat = 524 by
    unfold roundQ
    rw [show ((1497 : ℚ) * (35/100) + 1/2) = (52445 : ℚ) / 100 by norm_num]
    rw [show ⌊(52445 : ℚ) / 100⌋ = 524 by norm_num]
    decide]
  norm_num

/-- Claim C5 (amended): for every invocation with sample count n, the
returned energy trace has length exactly max(400, ⌊0.35*n⌋) — the code
truncates int(n*0.35) rather than rounding — with one entry per annealing
step in step order. -/
theorem energy_trace_length (src : RndSrc) (expQ : ℚ → ℚ) (p : Params) (n : ℕ)
    (res : GenResult) (h : generateWith src expQ p n = some res) :
    res.energy_trace.length = max 400 ⌊(n : ℚ) * (35/100)⌋₊ := by
  rw [generateWith_trace_length h, stepsOf_eq_floor]

/-- Witness for C5 (amended): the trace-length formula at the concrete run
with n = 1497. -/
theorem energy_trace_length_witness :
    ((generateWith cSrc cExpQ cP0 1497).get c5Res_isSome).energy_trace.length =
      max 400 ⌊((1497 : ℕ) : ℚ) * (35/100)⌋₊ :=
  energy_trace_length cSrc cExpQ cP0 1497 _ (Option.some_get c5Res_isSome).symm

/-- Claim C6: for every invocation with sample count n ≥ 300, the returned
population has at most max(n, 600) rows and at least one row. -/
theorem population_size_bound (src : RndSrc) (expQ : ℚ → ℚ) (p : Params)
    (n : ℕ) (res : GenResult) (_hn : 300 ≤ n)
    (h : generateWith src expQ p n = some res) :
    res.population.length ≤ max n 600 ∧ 1 ≤ res.population.length :=
  generateWith_population_size h

/-- Witness for C6: the size bounds at the concrete all-zero run with
n = 300. -/
theorem population_size_bound_witness :
    ((generateWith cSrc cExpQ cP0 300).get cRes300_isSome).population.length ≤ max 300 600 ∧
    1 ≤ ((generateWith cSrc cExpQ cP0 300).get cRes300_isSome).population.length :=
  population_size_bound cSrc cExpQ cP0 300 _ (by norm_num)
    (Option.some_get cRes300_isSome).symm

/-- Counterexample to claim C7 as stated: the malformed bundle with
target_total = -1 (which the claim's "including target_total ≤ 0" covers)
does not return normally — the phase-1 randint(0, -2) range is empty and
Python raises ValueError, rendered none in the embedding. -/
theorem malformed_raises_cex : generateWith cSrc cExpQ cPneg 0 = none :=
  generate_fails cSrc cExpQ cPneg 0 (by decide)

/-- Claim C7 (amended): generate_scenarios returns a (possibly degenerate)
result normally for every parameter bundle with nonnegative target_total —
including all objective weights zero and target_total = 0 — and raises
(ValueError from randint's empty range; none in the embedding) exactly when
target_total is negative. -/
theorem generate_error_iff (src : RndSrc) (expQ : ℚ → ℚ) (p : Params) (n : ℕ) :
    generateWith src expQ p n = none ↔ p.target_total < 0 := by
  constructor
  · intro h
    by_contra hge
    obtain ⟨res, hres⟩ := generate_succeeds src expQ p n (by omega)
    rw [h] at hres
    exact absurd hres (by simp)
  · exact generate_fails src expQ p n

/-- Claim C8: the score function returns exactly
w_cost*(cost/1_000_000) + w_risk*risk - w_ret*retention + penalty/100, and
ascending score (lower is better) is the single order by which the generator
ranks populations (sortRows sorts by it). -/
theorem score_formula (m : Metrics) (w_cost w_risk w_ret : ℚ) :
    _score m w_cost w_risk w_ret =
      w_cost * (m.cost / 1000000) + w_risk * m.risk - w_ret * m.retention +
        m.penalty / 100 ∧
    ∀ l : List Row, (sortRows l).Pairwise fun a b => a.score ≤ b.score :=
  ⟨rfl, sortRows_sorted⟩

/-- Counterexample to claim C9 as stated: at target_total = 141 the walk's
seed mix is (int(84.6), int(35.25), int(21.15)) = (84, 35, 21), but the
claim's round(0.60*141) = round(84.6) = 85 in the first coordinate — the
code truncates with int(), it does not round. -/
theorem seed_mix_cex :
    seedMix 141 ≠
      (roundQ (((141 : ℤ) : ℚ) * (60/100)), roundQ (((141 : ℤ) : ℚ) * (25/100)),
        max 0 (roundQ (((141 : ℤ) : ℚ) * (15/100)))) := by
  rw [seedMix_eq_floor (by norm_num)]
  intro hh
  have h1 := congrArg Prod.fst hh
  simp only at h1
  rw [show ⌊((141 : ℤ) : ℚ) * (60/100)⌋ = 84 by norm_num] at h1
  rw [show roundQ (((141 : ℤ) : ℚ) * (60/100)) = 85 by unfold roundQ; norm_num] at h1
  exact absurd h1 (by norm_num)

/-- Claim C9 (amended): for every nonnegative target_total t, the annealing
walk starts at the heuristic seed mix ft = ⌊0.60*t⌋, pt = ⌊0.25*t⌋,
ct = max(0, ⌊0.15*t⌋) — int() truncation (equal to floor on nonnegative
values), not rounding — and the walk's initial record carries exactly these
coordinates. -/
theorem seed_mix_floor (t : ℤ) (ht : 0 ≤ t) :
    seedMix t =
      (⌊(t : ℚ) * (60/100)⌋, ⌊(t : ℚ) * (25/100)⌋, max 0 ⌊(t : ℚ) * (15/100)⌋) ∧
    ∀ p : Params, p.target_total = t →
      (seedMetrics p).ft = (seedMix t).1 ∧
      (seedMetrics p).pt = (seedMix t).2.1 ∧
      (seedMetrics p).ct = (seedMix t).2.2 := by
  refine ⟨seedMix_eq_floor ht, ?_⟩
  intro p hp
  subst hp
  unfold seedMetrics
  dsimp only
  rw [_compute_metrics_ft, _compute_metrics_pt, _compute_metrics_ct]
  exact ⟨rfl, rfl, rfl⟩

/-- Witness for C9 (amended): the seed mix formula at target_total = 141,
where seedMix 141 = (84, 35, 21). -/
theorem seed_mix_floor_witness :
    (0 : ℤ) ≤ 141 ∧
    (seedMix 141 =
      (⌊((141 : ℤ) : ℚ) * (60/100)⌋, ⌊((141 : ℤ) : ℚ) * (25/100)⌋,
        max 0 ⌊((141 : ℤ) : ℚ) * (15/100)⌋) ∧
    ∀ p : Params, p.target_total = 141 →
      (seedMetrics p).ft = (seedMix 141).1 ∧
      (seedMetrics p).pt = (seedMix 141).2.1 ∧
      (seedMetrics p).ct = (seedMix 141).2.2) :=
  ⟨by norm_num, seed_mix_floor 141 (by norm_num)⟩

/-- Claim C10: with nonnegative target_total, every row of the returned
population has ft, pt and ct each a nonnegative integer at most
3*target_total; moreover phase-1 samples lie in [0, 2*target_total], the
annealing seed record lies within [0, 3*target_total], and the clamp sends
every integer into [0, 3*target_total]. -/
theorem population_coord_bounds (src : RndSrc) (expQ : ℚ → ℚ) (p : Params)
    (n : ℕ) (res : GenResult) (ht : 0 ≤ p.target_total)
    (h : generateWith src expQ p n = some res) :
    (∀ r ∈ res.population, coordBounds (p.target_total * 3) r.m) ∧
    (∀ rows1 k2, phase1 src p (sprayCount n) 0 = some (rows1, k2) →
      ∀ r ∈ rows1, coordBounds (p.target_total * 2) r.m) ∧
    coordBounds (p.target_total * 3) (seedMetrics p) ∧
    (∀ x : ℤ, 0 ≤ _clamp_int x 0 (p.target_total * 3) ∧
      _clamp_int x 0 (p.target_total * 3) ≤ p.target_total * 3) := by
  refine ⟨generateWith_population_bounds ht h, ?_, seedMetrics_bounds ht, ?_⟩
  · intro rows1 k2 h2 r hr
    obtain ⟨⟨a1, a2⟩, ⟨b1, b2⟩, ⟨c1, c2⟩⟩ := phase1_mem_bounds src p _ _ _ _ h2 r hr
    exact ⟨⟨a1, a2⟩, ⟨b1, b2⟩, ⟨c1, c2⟩⟩
  · intro x
    exact _clamp_int_bounds x _ (by omega)

/-- Witness for C10: the coordinate bounds at the concrete all-zero run with
n = 300. -/
theorem population_coord_bounds_witness :
    (∀ r ∈ ((generateWith cSrc cExpQ cP0 300).get cRes300_isSome).population,
      coordBounds (cP0.target_total * 3) r.m) ∧
    (∀ rows1 k2, phase1 cSrc cP0 (sprayCount 300) 0 = some (rows1, k2) →
      ∀ r ∈ rows1, coordBounds (cP0.target_total * 2) r.m) ∧
    coordBounds (cP0.target_total * 3) (seedMetrics cP0) ∧
    (∀ x : ℤ, 0 ≤ _clamp_int x 0 (cP0.target_total * 3) ∧
      _clamp_int x 0 (cP0.target_total * 3) ≤ cP0.target_total * 3) :=
  population_coord_bounds cSrc cExpQ cP0 300 _ (by decide)
    (Option.some_get cRes300_isSome).symm

/-- The spec's Pareto test vector: minimizing cost and risk and maximizing
retention over [A, B, C, D], the non-dominated set is exactly {A, B, C} in
original order — D is dominated, the duplicates A and C both survive. -/
theorem pareto_front_example :
    pareto_front [exA, exB, exC, exD] [0, 1] [2] = [exA, exB, exC] := by
  decide
